import Mathlib

/-!
Shallow embedding of the paginated remote-inventory scan engine of
`nr-find-lib.js` (the nr-find-log4j repository).

JavaScript conventions used throughout the embedding:
* `Option` models a JS value that may be `undefined`/`null` (`none`).
* JS truthiness of a string value (`undefined`, `null` and `""` are falsy)
  is modelled by `strTruthy`.
* A JS object used as a dictionary (`state.applications`) is modelled as an
  association list in insertion order; assigning to an existing key updates
  it in place, assigning to a fresh key appends (`mapSet`).
* A JS number that may be `NaN` (the result of `parseInt`) is modelled by
  `JsNum`.
-/

namespace NrFindLog4j


/-- JS truthiness of a possibly-absent string: `undefined`, `null` and the
empty string are falsy. -/
def strTruthy : Option String → Bool
  | some s => s ≠ ""
  | none => false

/-- Rendering of a possibly-absent JS integer inside a template literal:
`undefined` renders as the string "undefined". -/
def renderOptInt : Option Int → String
  | some n => toString n
  | none => "undefined"

/-- A JS number that may be `NaN` (e.g. the result of `parseInt`). -/
inductive JsNum where
  | nan : JsNum
  | int : Int → JsNum
deriving DecidableEq, Repr

/-- JS truthiness of a possibly-absent number: `undefined`, `NaN` and `0`
are falsy. -/
def jsNumTruthy : Option JsNum → Bool
  | some (.int n) => n ≠ 0
  | _ => false

/-- Rendering of a possibly-absent JS number inside a template literal. -/
def renderAppId : Option JsNum → String
  | some (.int n) => toString n
  | some .nan => "NaN"
  | none => "undefined"

/-- Whether the first list is a leading segment of the second. -/
def leadMatch : List Char → List Char → Bool
  | [], _ => true
  | _ :: _, [] => false
  | a :: as, b :: bs => a == b && leadMatch as bs

/-- Leading-segment search at every position: JS `String.prototype.includes`. -/
def subSearch (needle : List Char) : List Char → Bool
  | [] => needle.isEmpty
  | c :: rest => leadMatch needle (c :: rest) || subSearch needle rest

/-- JS `hay.includes(needle)`. -/
def strIncludes (hay needle : String) : Bool :=
  subSearch needle.data hay.data

/-- First-occurrence deduplication, the order kept by a JS `Set`. -/
def dedupGo (seen : List String) : List String → List String
  | [] => []
  | a :: rest => if a ∈ seen then dedupGo seen rest else a :: dedupGo (a :: seen) rest

/-- `[...new Set(vals)]`: deduplicate keeping the first occurrence of each
element. -/
def dedupFirst (l : List String) : List String :=
  dedupGo [] l

/-- `concatNoneOrMore(a, b, c, d, e, f)` from `nr-find-lib.js`: drop the
`undefined`/`null`/empty-string arguments, deduplicate, join with commas. -/
def concatNoneOrMore (a b c d e f : Option String) : String :=
  String.intercalate "," (dedupFirst (([a, b, c, d, e, f].filterMap id).filter (fun v => v ≠ "")))

/-- Index of a character in the base64 alphabet. -/
def b64Index (c : Char) : Option Nat :=
  if 'A' ≤ c ∧ c ≤ 'Z' then some (c.toNat - 65)
  else if 'a' ≤ c ∧ c ≤ 'z' then some (c.toNat - 97 + 26)
  else if '0' ≤ c ∧ c ≤ '9' then some (c.toNat - 48 + 52)
  else if c = '+' then some 62
  else if c = '/' then some 63
  else none

/-- Decode groups of base64 sextets into bytes; a leftover group of one
sextet is invalid. -/
def b64DecodeGroups : List Nat → Option (List Nat)
  | [] => some []
  | [_] => none
  | [a, b] => some [(a * 64 + b) / 16 % 256]
  | [a, b, c] =>
    let n := a * 4096 + b * 64 + c
    some [n / 1024 % 256, n / 4 % 256]
  | a :: b :: c :: d :: rest =>
    let n := a * 262144 + b * 4096 + c * 64 + d
    (b64DecodeGroups rest).map (fun bs => n / 65536 % 256 :: n / 256 % 256 :: n % 256 :: bs)

/-- Remove up to two trailing `=` padding characters. -/
def dropPad (cs : List Char) : List Char :=
  match cs.reverse with
  | '=' :: '=' :: rest => rest.reverse
  | '=' :: rest => rest.reverse
  | _ => cs

/-- ASCII whitespace stripped by the forgiving base64 decode. -/
def asciiWs (c : Char) : Bool :=
  c = ' ' ∨ c = '\t' ∨ c = '\n' ∨ c = '\x0d' ∨ c = '\x0c'

/-- `atob(s)` (WHATWG forgiving base64 decode) returning the decoded bytes,
or `none` when the decode throws `InvalidCharacterError`. -/
def atobChars (s : String) : Option (List Nat) :=
  let cs := s.data.filter (fun c => !asciiWs c)
  let cs := if cs.length % 4 == 0 then dropPad cs else cs
  if cs.length % 4 == 1 then none
  else (cs.mapM b64Index).bind b64DecodeGroups

/-- `atob(s)` as a binary (latin-1) string, `none` when the decode throws. -/
def atobString (s : String) : Option String :=
  (atobChars s).map (fun bs => String.mk (bs.map Char.ofNat))

/-- Value of a character as a digit for bases up to 16. -/
def hexVal (c : Char) : Option Nat :=
  if '0' ≤ c ∧ c ≤ '9' then some (c.toNat - 48)
  else if 'a' ≤ c ∧ c ≤ 'f' then some (c.toNat - 87)
  else if 'A' ≤ c ∧ c ≤ 'F' then some (c.toNat - 55)
  else none

/-- Longest leading run of digits valid in the given base. -/
def takeDigits (base : Nat) : List Char → List Nat
  | [] => []
  | c :: rest =>
    match hexVal c with
    | some v => if v < base then v :: takeDigits base rest else []
    | none => []

/-- JS `parseInt(s)` with no radix argument: skip leading whitespace, read
an optional sign, auto-detect a `0x` hex prefix, consume leading digits;
`NaN` when no digit is consumed. -/
def parseIntJs (s : String) : JsNum :=
  let cs := s.data.dropWhile (fun c => asciiWs c ∨ c = '\x0b')
  let signed : Bool × List Char :=
    match cs with
    | '-' :: rest => (true, rest)
    | '+' :: rest => (false, rest)
    | _ => (false, cs)
  let based : Nat × List Char :=
    match signed.2 with
    | '0' :: 'x' :: rest => (16, rest)
    | '0' :: 'X' :: rest => (16, rest)
    | _ => (10, signed.2)
  let ds := takeDigits based.1 based.2
  if ds.isEmpty then .nan
  else .int ((if signed.1 then -1 else 1) * (ds.foldl (fun a d => a * based.1 + d) 0 : Nat))

/-- `getApplicationIdFromGuid(guid)` from `nr-find-lib.js`: a falsy guid
gives `undefined` (`none`); otherwise `atob` the guid (a throw is caught and
gives `undefined`), split on `|`, and `parseInt` the 4th field
(`parseInt(undefined)` is `NaN` when there are fewer than 4 fields). -/
def getApplicationIdFromGuid (guid : String) : Option JsNum :=
  if guid = "" then none
  else
    match atobString guid with
    | none => none
    | some decodedString =>
      match (decodedString.splitOn "|")[3]? with
      | none => some .nan
      | some field => some (parseIntJs field)

/-- One entity of a `getServices`/`getMoreServices` page
(`ApmApplicationEntityOutline`); every field may be absent on the wire (a
non-matching fragment yields an empty object). -/
structure EntityOutline where
  guid : Option String
  name : Option String
  applicationId : Option Int
  accountId : Option Int
  reporting : Option Bool
deriving DecidableEq, Repr, Inhabited

/-- One page of the paginated "list entities" query:
`actor.entitySearch.{count, results.{nextCursor, entities}}`. -/
structure ServicePage where
  count : Nat
  entities : List EntityOutline
  nextCursor : Option String
deriving DecidableEq, Repr, Inhabited

/-- Agent module metadata attribute (`{name, value}`); an absent or falsy
`value` is modelled by `""`. -/
structure ModuleAttr where
  name : String
  value : String
deriving DecidableEq, Repr, Inhabited

/-- One jar module entry (`{name, version, attributes}`). -/
structure JarModule where
  name : String
  version : String
  attributes : Option (List ModuleAttr)
deriving DecidableEq, Repr, Inhabited

/-- One application instance of the per-entity lookup (`{modules}`). -/
structure AppInstance where
  modules : Option (List JarModule)
deriving DecidableEq, Repr, Inhabited

/-- `runningAgentVersions` of the per-entity lookup. -/
structure AgentVersions where
  minVersion : Option String
  maxVersion : Option String
deriving DecidableEq, Repr, Inhabited

/-- `actor.entity` payload of the per-entity lookup. -/
structure EntityData where
  applicationInstances : Option (List AppInstance)
  runningAgentVersions : Option AgentVersions
deriving DecidableEq, Repr, Inhabited

/-- `actor` wrapper of the per-entity lookup. -/
structure ActorEntity where
  entity : Option EntityData
deriving DecidableEq, Repr, Inhabited

/-- `data` payload of the per-entity lookup response. -/
structure EntityLookup where
  actor : Option ActorEntity
deriving DecidableEq, Repr, Inhabited

/-- One record of `state.applications`: the entity object decorated with
`nrUrl` and, once enrichment finds evidence, the library fields.  Evidence
fields start absent (`none`). -/
structure AppRecord where
  guid : String
  name : Option String
  applicationId : Option JsNum
  accountId : Option Int
  reporting : Option Bool
  nrUrl : String
  library : Option String := none
  libraryVersion : Option String := none
  librarySha1 : Option String := none
  librarySha512 : Option String := none
  agentVersion : Option String := none
  examinedInstances : Option Nat := none
deriving DecidableEq, Repr

/-- `state.applications`: a JS object keyed by guid, in insertion order. -/
abbrev AppMap := List (String × AppRecord)

/-- Dictionary read `m[k]`. -/
def mapGet : AppMap → String → Option AppRecord
  | [], _ => none
  | (k', v) :: rest, k => if k' = k then some v else mapGet rest k

/-- Dictionary write `m[k] = v`: update in place when the key exists,
append otherwise (JS property insertion order). -/
def mapSet : AppMap → String → AppRecord → AppMap
  | [], k, v => [(k, v)]
  | (k', v') :: rest, k, v =>
    if k' = k then (k, v) :: rest else (k', v') :: mapSet rest k v

/-- The reporting URL template of `findServices` and
`findModulesByAccount`. -/
def mkEnvUrl (acct appl : String) : String :=
  "https://rpm.newrelic.com/accounts/" ++ acct ++ "/applications/" ++ appl ++ "/environment"

/-- The record stored by `findServices` for an entity with truthy guid `g`:
the entity object with `nrUrl` added. -/
def mkAppRecord (g : String) (e : EntityOutline) : AppRecord :=
  { guid := g
    name := e.name
    applicationId := e.applicationId.map JsNum.int
    accountId := e.accountId
    reporting := e.reporting
    nrUrl := mkEnvUrl (renderOptInt e.accountId) (renderOptInt e.applicationId) }

/-- The body of the per-entity loop of `findServices`: store entities whose
guid is truthy, keyed by guid. -/
def entityStep (apps : AppMap) (application : EntityOutline) : AppMap :=
  match application.guid with
  | some g => if g = "" then apps else mapSet apps g (mkAppRecord g application)
  | none => apps

/-- The cursor loop of `findServices` over the successive successful pages
returned by the server.  `requests` counts the "list entities" queries
issued so far; a truthy `nextCursor` issues one more request, consuming the
next page (an exhausted page list models a request that returned no data,
which ends the `while (resultSet)` loop). -/
def findServicesGo : List ServicePage → AppMap → Nat → Nat × AppMap
  | [], apps, requests => (requests, apps)
  | page :: rest, apps, requests =>
    let apps2 := page.entities.foldl entityStep apps
    if strTruthy page.nextCursor then findServicesGo rest apps2 (requests + 1)
    else (requests, apps2)

/-- `findServices`: build the entity directory from the successive pages,
starting from an empty `state.applications` and one initial request. -/
def findServices (pages : List ServicePage) : Nat × AppMap :=
  findServicesGo pages [] 1

/-- An error thrown by `https.request` (or by response parsing): its
optional numeric `code` and its `toString()` rendering. -/
structure NetErr where
  code : Option Int
  msg : String
deriving DecidableEq, Repr

/-- The certificate-trust test of `handleNetworkError`: `err.code === 18`
(X509_V_ERR_DEPTH_ZERO_SELF_SIGNED_CERT), `err.code === 19`
(X509_V_ERR_SELF_SIGNED_CERT_IN_CHAIN), or the error string containing
"self signed certificate". -/
def isCertError (err : NetErr) : Bool :=
  err.code == some 18 || err.code == some 19 || strIncludes err.msg "self signed certificate"

/-- What `handleNetworkError` does with a thrown error. -/
inductive NetAction where
  /-- `CERT_ERROR_HELP` is written to stderr and the process exits with
  status 5. -/
  | exitFive : NetAction
  /-- The error string is logged and execution continues. -/
  | logged : String → NetAction
deriving DecidableEq, Repr

/-- `handleNetworkError(err)` from `nr-find-lib.js`. -/
def handleNetworkError (err : NetErr) : NetAction :=
  if isCertError err then .exitFive
  else .logged ("Exception processing API call: " ++ err.msg)

/-- The outcome of one transport attempt (`buildRequestPromise` awaited):
either the promise rejects with an error, or it resolves to a response body
with optional `errors` (the JSON-rendered GraphQL errors; any present
array is truthy) and optional `data`. -/
inductive Attempt (α : Type) where
  | throws : NetErr → Attempt α
  | responds : Option String → Option α → Attempt α
deriving DecidableEq, Repr

/-- The caller-visible outcome of `nerdgraphQuery`: either the process
exited (certificate-trust failure) or the query returned `data` /
`undefined`. -/
inductive QueryOut (α : Type) where
  | exited : Nat → QueryOut α
  | result : Option α → QueryOut α
deriving DecidableEq, Repr

/-- The full observable behaviour of one `nerdgraphQuery` call. -/
structure QueryResult (α : Type) where
  /-- number of HTTPS requests issued -/
  requests : Nat
  /-- `response.errors` payloads logged (first attempt only, per the code) -/
  loggedErrors : List String
  /-- whether the `CERT_ERROR_HELP` remediation guidance was emitted -/
  certHelp : Bool
  /-- caller-visible outcome -/
  out : QueryOut α
deriving DecidableEq, Repr

/-- `nerdgraphQuery` from `nr-find-lib.js`, given the outcomes of the first
and (if reached) second transport attempt.  First attempt: log
`response.errors` when present, return `response.data` when present; on a
throw run `handleNetworkError` (certificate errors exit the process).
Whenever no data was returned and the process did not exit, the entire
request is retried exactly once; the retry returns `response.data` when
present, and any remaining failure yields `undefined`. -/
def nerdgraphQuery (a1 a2 : Attempt α) : QueryResult α :=
  match a1 with
  | .responds errs dat =>
    let logs := match errs with
      | some e => ["Error returned from API: " ++ e]
      | none => []
    match dat with
    | some d => ⟨1, logs, false, .result (some d)⟩
    | none =>
      match a2 with
      | .responds _ (some d) => ⟨2, logs, false, .result (some d)⟩
      | .responds _ none => ⟨2, logs, false, .result none⟩
      | .throws e =>
        match handleNetworkError e with
        | .exitFive => ⟨2, logs, true, .exited 5⟩
        | .logged _ => ⟨2, logs, false, .result none⟩
  | .throws e =>
    match handleNetworkError e with
    | .exitFive => ⟨1, [], true, .exited 5⟩
    | .logged _ =>
      match a2 with
      | .responds _ (some d) => ⟨2, [], false, .result (some d)⟩
      | .responds _ none => ⟨2, [], false, .result none⟩
      | .throws e2 =>
        match handleNetworkError e2 with
        | .exitFive => ⟨2, [], true, .exited 5⟩
        | .logged _ => ⟨2, [], false, .result none⟩

/-- The attribute loop shared by `findModulesByEntity` and
`findModulesByAccount`: a truthy `sha1Checksum` / `sha512Checksum`
attribute value overwrites the corresponding record field. -/
def applyAttr (application : AppRecord) (attrib : ModuleAttr) : AppRecord :=
  let a1 :=
    if attrib.name == "sha1Checksum" && attrib.value != "" then
      { application with librarySha1 := some attrib.value }
    else application
  if attrib.name == "sha512Checksum" && attrib.value != "" then
    { a1 with librarySha512 := some attrib.value }
  else a1

/-- The module body shared by both enrichers: overwrite `library` and
`libraryVersion`, then run the attribute loop when `attributes` is
present. -/
def applyModule (application : AppRecord) (module : JarModule) : AppRecord :=
  let a1 := { application with library := some module.name, libraryVersion := some module.version }
  match module.attributes with
  | some attrs => attrs.foldl applyAttr a1
  | none => a1

/-- The per-instance body of `findModulesByEntity`: an instance with a
present, non-empty `modules` array bumps `instanceCount` and merges every
module. -/
def applyInstance (acc : AppRecord × Nat) (inst : AppInstance) : AppRecord × Nat :=
  match inst.modules with
  | some ms => if ms.length > 0 then (ms.foldl applyModule acc.1, acc.2 + 1) else acc
  | none => acc

/-- The warning `findModulesByEntity` writes to stderr when the response
lacks the expected nested shape, carrying the interpolated identity
(`application.guid`) and reporting URL (`application.nrUrl`). -/
structure ShapeWarning where
  guid : String
  nrUrl : String
deriving DecidableEq, Repr

/-- The per-record body of `findModulesByEntity`: when the response data
and its `actor.entity.applicationInstances` chain are present (a present,
possibly empty, array is truthy), store the deduplicated agent version
range if `runningAgentVersions` is present, merge the modules of every instance,
and record `examinedInstances`; otherwise warn and leave the record
untouched. -/
def enrichApp (application : AppRecord) (dat : Option EntityLookup) : AppRecord × List ShapeWarning :=
  match dat with
  | some d =>
    match d.actor with
    | some actor =>
      match actor.entity with
      | some entity =>
        match entity.applicationInstances with
        | some insts =>
          let a1 := match entity.runningAgentVersions with
            | some rv =>
              { application with
                agentVersion := some (concatNoneOrMore rv.minVersion rv.maxVersion none none none none) }
            | none => application
          let folded := insts.foldl applyInstance (a1, 0)
          ({ folded.1 with examinedInstances := some folded.2 }, [])
        | none => (application, [⟨application.guid, application.nrUrl⟩])
      | none => (application, [⟨application.guid, application.nrUrl⟩])
    | none => (application, [⟨application.guid, application.nrUrl⟩])
  | none => (application, [⟨application.guid, application.nrUrl⟩])

/-- Outcome of the `findModulesByEntity` loop: the process either exits
mid-scan (with the entity entries as they stood) or finishes with the
enriched entries; per-record shape warnings are collected. -/
inductive RunOut where
  | exited : Nat → List (String × AppRecord) → List ShapeWarning → RunOut
  | finished : List (String × AppRecord) → List ShapeWarning → RunOut
deriving DecidableEq, Repr

/-- `findModulesByEntity`, iterating `Object.values(state.applications)` in
insertion order: the lookup of each record is one `nerdgraphQuery` whose two
attempt outcomes are given by the transport oracle `att` keyed on the
guid of the record.  A process exit inside the transport stops the loop with the
remaining records untouched; otherwise the record is enriched (or left
unmodified with a warning) and the loop proceeds. -/
def findModulesByEntity (att : String → Attempt EntityLookup × Attempt EntityLookup) :
    List (String × AppRecord) → RunOut
  | [] => .finished [] []
  | (g, application) :: rest =>
    match (nerdgraphQuery (att application.guid).1 (att application.guid).2).out with
    | .exited c => .exited c ((g, application) :: rest) []
    | .result dat =>
      let res := enrichApp application dat
      match findModulesByEntity att rest with
      | .exited c es ws => .exited c ((g, res.1) :: es) (res.2 ++ ws)
      | .finished es ws => .finished ((g, res.1) :: es) (res.2 ++ ws)

/-- The caller-visible outcome of the `nerdgraphQuery` issued for one
record by `findModulesByEntity`. -/
def runQuery (att : String → Attempt EntityLookup × Attempt EntityLookup)
    (application : AppRecord) : QueryOut EntityLookup :=
  (nerdgraphQuery (att application.guid).1 (att application.guid).2).out

/-- The data a non-exiting query outcome hands to the loop body. -/
def resultData : QueryOut α → Option α
  | .result d => d
  | .exited _ => none

/-- One directory entry after its per-entity enrichment. -/
def enrichedPair (att : String → Attempt EntityLookup × Attempt EntityLookup)
    (p : String × AppRecord) : String × AppRecord :=
  (p.1, (enrichApp p.2 (resultData (runQuery att p.2))).1)

/-- The entity entries carried by either loop outcome. -/
def runEntries : RunOut → List (String × AppRecord)
  | .exited _ es _ => es
  | .finished es _ => es

/-- The `details` object of one account-level module query result. -/
structure AccountModuleDetails where
  name : String
  host : Option String
deriving DecidableEq, Repr

/-- One result group of the account-level module query. -/
structure AccountModuleResult where
  details : AccountModuleDetails
  loadedModules : List JarModule
  applicationGuids : Option (List String)
deriving DecidableEq, Repr

/-- JS `name.replace` dropping a leading java: language tag. -/
def dropJavaTag (s : String) : String :=
  if s.startsWith "java:" then s.drop 5 else s

/-- JS `s.replace` dropping a trailing colon-and-digits port ending when
present. -/
def dropPortTag (s : String) : String :=
  let rev := s.data.reverse
  let ds := rev.takeWhile (fun c => c.isDigit)
  if ds.isEmpty then s
  else
    match rev.drop ds.length with
    | ':' :: rest => String.mk rest.reverse
    | _ => s

/-- The minimal record `findModulesByAccount` synthesizes when a guid is
absent from the directory: application id decoded from the guid, reporting
URL derived from it when the decoded id is truthy, empty otherwise. -/
def synthesizeRecord (accountId : Int) (appName guid : String) : AppRecord :=
  let applicationId := getApplicationIdFromGuid guid
  { guid := guid
    name := some appName
    applicationId := applicationId
    accountId := some accountId
    reporting := none
    nrUrl :=
      if jsNumTruthy applicationId then
        mkEnvUrl (toString accountId) (renderAppId applicationId)
      else "" }

/-- The per-guid body of `findModulesByAccount`: when the guid is not yet
in the directory, synthesize a minimal record; then merge the evidence of the module into the record under the guid (same last-write merge as the
per-entity path). -/
def processModuleGuid (accountId : Int) (appName : String) (module : JarModule)
    (apps : AppMap) (guid : String) : AppMap :=
  let application :=
    match mapGet apps guid with
    | some a => a
    | none => synthesizeRecord accountId appName guid
  mapSet apps guid (applyModule application module)

/-- The module loop of one account-level result group.  A missing
`applicationGuids` array prints a warning and then throws when iterated
(`for (const guid of undefined)`), which the per-account `catch` turns into
an aborted account (`true` in the second component); an empty array only
warns and continues. -/
def processModules (accountId : Int) (appName : String) (guids : Option (List String))
    (apps : AppMap) : List JarModule → AppMap × Bool
  | [] => (apps, false)
  | module :: rest =>
    match guids with
    | none => (apps, true)
    | some gs =>
      processModules accountId appName guids
        (gs.foldl (processModuleGuid accountId appName module) apps) rest

/-- One result group of `findModulesByAccount`: groups with at least one
loaded module derive the display name from `details.name` (strip the
`java:` language tag and a trailing port) and run the module loop. -/
def processResult (accountId : Int) (apps : AppMap) (r : AccountModuleResult) : AppMap × Bool :=
  if r.loadedModules.length > 0 then
    processModules accountId (dropPortTag (dropJavaTag r.details.name)) r.applicationGuids
      apps r.loadedModules
  else (apps, false)

/-- The result-group loop of one page of `findModulesByAccount`; an aborted
group stops the page (the per-account `catch`), keeping the mutations made
so far. -/
def processResults (accountId : Int) : List AccountModuleResult → AppMap → AppMap × Bool
  | [], apps => (apps, false)
  | r :: rest, apps =>
    let step := processResult accountId apps r
    if step.2 then (step.1, true) else processResults accountId rest step.1

/-- The result-selection core of `writeResults`: `Object.values` of the
entity map, filtered to the records with a truthy `library` field unless
`--all-services` was passed. -/
def writeResults (state : AppMap) (includeAllApplications : Bool) : List AppRecord :=
  let applications := state.map Prod.snd
  let vulnerableApplications := applications.filter (fun a => strTruthy a.library)
  if includeAllApplications then applications else vulnerableApplications

/-! ### Helper notions for the last-write-wins characterization -/

/-- The value left by a sequence of overwrites `l` on an initial optional
value `d`: the last write when there is one, `d` otherwise. -/
def lastOr {α : Type} (l : List α) (d : Option α) : Option α :=
  match l.getLast? with
  | some v => some v
  | none => d

/-- The truthy `sha1Checksum`/`sha512Checksum` (etc.) attribute values of
tag `tag` in an attribute list, in order. -/
def attrWrites (tag : String) (attrs : List ModuleAttr) : List String :=
  (attrs.filter (fun a => a.name == tag && a.value != "")).map (fun a => a.value)

/-- The truthy attribute writes of one module. -/
def modWrites (tag : String) (m : JarModule) : List String :=
  attrWrites tag (m.attributes.getD [])

/-- The truthy attribute writes of a module list, in iteration order. -/
def modsWrites (tag : String) (ms : List JarModule) : List String :=
  ms.flatMap (modWrites tag)

/-- All modules the per-entity loop iterates, in order (instances without a
`modules` array contribute nothing). -/
def instanceModules (insts : List AppInstance) : List JarModule :=
  insts.flatMap (fun i => i.modules.getD [])

/-- Number of application instances reporting at least one module entry. -/
def countExamined (insts : List AppInstance) : Nat :=
  (insts.filter (fun i => 0 < (i.modules.getD []).length)).length

/-! ### Dictionary lemmas -/

/-- The keys of the entity map, in insertion order. -/
def mapKeys (m : AppMap) : List String := m.map Prod.fst

/-- Every record of the map carries a guid equal to its key. -/
def keyedByGuid (m : AppMap) : Prop := ∀ p ∈ m, (p.2).guid = p.1

/-- At most one record exists per guid. -/
def nodupKeys (m : AppMap) : Prop := (mapKeys m).Nodup

instance (m : AppMap) : Decidable (keyedByGuid m) := by
  unfold keyedByGuid
  infer_instance

instance (m : AppMap) : Decidable (nodupKeys m) := by
  unfold nodupKeys
  infer_instance

/-! ### Per-entity loop lemmas -/

/-- The modules the per-entity merge would iterate for a given response
(`[]` when the nested shape is missing). -/
def entityModulesOf : Option EntityLookup → List JarModule
  | some ⟨some ⟨some ⟨some insts, _⟩⟩⟩ => instanceModules insts
  | _ => []

/-- The per-entity shape check of `findModulesByEntity`:
`data && data.actor && data.actor.entity &&
data.actor.entity.applicationInstances` is falsy. -/
def shapeFails : Option EntityLookup → Bool
  | some ⟨some ⟨some ⟨some _, _⟩⟩⟩ => false
  | _ => true

/-! ### Invariant lemmas -/

/-- No module evidence has been recorded: the library evidence fields are
absent, not default/zero. -/
def evidenceFree (a : AppRecord) : Prop :=
  a.library = none ∧ a.libraryVersion = none ∧ a.librarySha1 = none ∧ a.librarySha512 = none

instance (a : AppRecord) : Decidable (evidenceFree a) := by
  unfold evidenceFree
  infer_instance

/-- The working invariant of the directory builder: records keyed by their
own guid, one record per guid, evidence fields absent. -/
def dirInv (m : AppMap) : Prop :=
  keyedByGuid m ∧ nodupKeys m ∧ ∀ p ∈ m, evidenceFree p.2

/-! ### Claim-statement helpers -/

/-- Follows the words of the spec claim, for refinement comparison only: the
checksum attribute value carried by the last matching module itself (absent
when that module carries none). -/
def lastModuleSha (tag : String) (insts : List AppInstance) : Option String :=
  (instanceModules insts).getLast?.bind (fun m => lastOr (modWrites tag m) none)

/-- Concrete two-page directory listing used to witness the pagination
claim. -/
def c1Pages : List ServicePage :=
  [⟨3, [⟨some "gA", some "SvcA", some 11, some 1, some true⟩], some "cursor-1"⟩,
   ⟨3, [⟨some "gB", some "SvcB", some 22, some 1, some true⟩,
        ⟨some "gA", some "SvcA2", some 33, some 2, some true⟩], none⟩]

/-- A record whose `library` evidence was set from a module with an empty
name (so the field is present but falsy). -/
def c7Record : AppRecord :=
  (enrichApp ⟨"gC", none, none, none, none, "u", none, none, none, none, none, none⟩
    (some ⟨some ⟨some ⟨some [⟨some [⟨"", "1.0", none⟩]⟩], none⟩⟩⟩)).1

/-! ### Claim theorems -/

theorem lastOr_nil {α : Type} (d : Option α) : lastOr [] d = d := rfl

theorem lastOr_cons {α : Type} (x : α) (l : List α) (d : Option α) :
    lastOr (x :: l) d = lastOr l (some x) := by
  cases l with
  | nil => rfl
  | cons y ys =>
    unfold lastOr
    rw [List.getLast?_cons_cons]
    cases h : (y :: ys).getLast? with
    | none => simp at h
    | some v => rfl

theorem lastOr_append {α : Type} (xs ys : List α) (d : Option α) :
    lastOr (xs ++ ys) d = lastOr ys (lastOr xs d) := by
  induction xs generalizing d with
  | nil => rfl
  | cons x xs ih => rw [List.cons_append, lastOr_cons, lastOr_cons, ih]

theorem lastOr_idem {α : Type} (l : List α) (d : Option α) :
    lastOr l (lastOr l d) = lastOr l d := by
  unfold lastOr
  cases l.getLast? <;> rfl

theorem attrWrites_cons (tag : String) (a : ModuleAttr) (attrs : List ModuleAttr) :
    attrWrites tag (a :: attrs) = attrWrites tag [a] ++ attrWrites tag attrs := by
  simp only [attrWrites, List.filter_cons]
  by_cases h : (a.name == tag && a.value != "") = true <;> simp [h]

theorem applyAttr_spec (app : AppRecord) (a : ModuleAttr) :
    applyAttr app a =
      { app with
        librarySha1 := lastOr (attrWrites "sha1Checksum" [a]) app.librarySha1
        librarySha512 := lastOr (attrWrites "sha512Checksum" [a]) app.librarySha512 } := by
  cases app
  by_cases h1 : (a.name == "sha1Checksum" && a.value != "") = true <;>
    by_cases h2 : (a.name == "sha512Checksum" && a.value != "") = true <;>
    simp [applyAttr, attrWrites, lastOr, h1, h2]

theorem foldl_applyAttr (attrs : List ModuleAttr) (app : AppRecord) :
    attrs.foldl applyAttr app =
      { app with
        librarySha1 := lastOr (attrWrites "sha1Checksum" attrs) app.librarySha1
        librarySha512 := lastOr (attrWrites "sha512Checksum" attrs) app.librarySha512 } := by
  induction attrs generalizing app with
  | nil => rfl
  | cons a attrs ih =>
    rw [List.foldl_cons, ih, applyAttr_spec, attrWrites_cons "sha1Checksum" a attrs,
      attrWrites_cons "sha512Checksum" a attrs, lastOr_append, lastOr_append]

theorem applyModule_spec (app : AppRecord) (m : JarModule) :
    applyModule app m =
      { app with
        library := some m.name
        libraryVersion := some m.version
        librarySha1 := lastOr (modWrites "sha1Checksum" m) app.librarySha1
        librarySha512 := lastOr (modWrites "sha512Checksum" m) app.librarySha512 } := by
  cases hm : m.attributes with
  | none => cases app; simp [applyModule, hm, modWrites, attrWrites, lastOr]
  | some attrs =>
    simp only [applyModule, hm, modWrites, Option.getD_some]
    rw [foldl_applyAttr]

theorem foldl_applyModule (ms : List JarModule) (app : AppRecord) :
    ms.foldl applyModule app =
      { app with
        library := lastOr (ms.map (fun m => m.name)) app.library
        libraryVersion := lastOr (ms.map (fun m => m.version)) app.libraryVersion
        librarySha1 := lastOr (modsWrites "sha1Checksum" ms) app.librarySha1
        librarySha512 := lastOr (modsWrites "sha512Checksum" ms) app.librarySha512 } := by
  induction ms generalizing app with
  | nil => rfl
  | cons m ms ih =>
    rw [List.foldl_cons, ih, applyModule_spec]
    simp only [List.map_cons, modsWrites, List.flatMap_cons]
    rw [lastOr_cons, lastOr_cons, lastOr_append, lastOr_append]

theorem foldl_applyInstance (insts : List AppInstance) (app : AppRecord) (k : Nat) :
    insts.foldl applyInstance (app, k) =
      ((instanceModules insts).foldl applyModule app, k + countExamined insts) := by
  induction insts generalizing app k with
  | nil => simp [instanceModules, countExamined]
  | cons i insts ih =>
    cases hm : i.modules with
    | none =>
      rw [List.foldl_cons]
      simp only [applyInstance, hm]
      rw [ih]
      simp [instanceModules, countExamined, hm]
    | some ms =>
      by_cases hl : ms.length > 0
      · rw [List.foldl_cons]
        simp only [applyInstance, hm, if_pos hl]
        rw [ih]
        have hmods : instanceModules (i :: insts) = ms ++ instanceModules insts := by
          simp [instanceModules, hm]
        have hcount : countExamined (i :: insts) = countExamined insts + 1 := by
          simp [countExamined, List.filter_cons, hm, hl]
        rw [hmods, hcount, List.foldl_append]
        simp only [Prod.mk.injEq, true_and]
        omega
      · rw [List.foldl_cons]
        simp only [applyInstance, hm, if_neg hl]
        rw [ih]
        have hms : ms = [] := List.length_eq_zero.mp (Nat.eq_zero_of_not_pos hl)
        simp [instanceModules, countExamined, hm, hms]

theorem enrichApp_spec (app : AppRecord) (insts : List AppInstance) (rv : Option AgentVersions) :
    enrichApp app (some ⟨some ⟨some ⟨some insts, rv⟩⟩⟩) =
      ({ app with
          agentVersion :=
            match rv with
            | some r => some (concatNoneOrMore r.minVersion r.maxVersion none none none none)
            | none => app.agentVersion
          library := lastOr ((instanceModules insts).map (fun m => m.name)) app.library
          libraryVersion := lastOr ((instanceModules insts).map (fun m => m.version)) app.libraryVersion
          librarySha1 := lastOr (modsWrites "sha1Checksum" (instanceModules insts)) app.librarySha1
          librarySha512 := lastOr (modsWrites "sha512Checksum" (instanceModules insts)) app.librarySha512
          examinedInstances := some (countExamined insts) }, []) := by
  cases rv with
  | none =>
    simp only [enrichApp]
    rw [foldl_applyInstance, foldl_applyModule]
    cases app
    simp
  | some r =>
    simp only [enrichApp]
    rw [foldl_applyInstance, foldl_applyModule]
    cases app
    simp

theorem mapGet_mapSet (m : AppMap) (k k' : String) (v : AppRecord) :
    mapGet (mapSet m k v) k' = if k = k' then some v else mapGet m k' := by
  induction m with
  | nil => rfl
  | cons p rest ih =>
    by_cases h : p.1 = k
    · by_cases hk : k = k' <;>
        simp [mapSet, mapGet, h, hk]
    · by_cases hk : p.1 = k' <;> by_cases hk2 : k = k' <;>
        simp_all [mapSet, mapGet]

theorem mem_mapKeys_mapSet (m : AppMap) (k a : String) (v : AppRecord) :
    a ∈ mapKeys (mapSet m k v) ↔ a ∈ mapKeys m ∨ a = k := by
  induction m with
  | nil => simp [mapSet, mapKeys]
  | cons p rest ih =>
    obtain ⟨pk, pv⟩ := p
    by_cases h : pk = k
    · have hred : mapSet ((pk, pv) :: rest) k v = (k, v) :: rest := by
        simp [mapSet, h]
      rw [hred]
      simp only [mapKeys, List.map_cons, List.mem_cons]
      rw [h]
      tauto
    · have hred : mapSet ((pk, pv) :: rest) k v = (pk, pv) :: mapSet rest k v := by
        simp [mapSet, h]
      rw [hred]
      simp only [mapKeys, List.map_cons, List.mem_cons] at ih ⊢
      rw [ih]
      tauto

theorem nodupKeys_mapSet (m : AppMap) (k : String) (v : AppRecord)
    (h : nodupKeys m) : nodupKeys (mapSet m k v) := by
  induction m with
  | nil => simp [mapSet, nodupKeys, mapKeys]
  | cons p rest ih =>
    obtain ⟨pk, pv⟩ := p
    unfold nodupKeys mapKeys at h ih ⊢
    rw [List.map_cons, List.nodup_cons] at h
    obtain ⟨hnotin, hnd⟩ := h
    by_cases hp : pk = k
    · have hred : mapSet ((pk, pv) :: rest) k v = (k, v) :: rest := by
        simp [mapSet, hp]
      rw [hred, List.map_cons, List.nodup_cons]
      refine ⟨?_, hnd⟩
      rw [← hp]
      exact hnotin
    · have hred : mapSet ((pk, pv) :: rest) k v = (pk, pv) :: mapSet rest k v := by
        simp [mapSet, hp]
      rw [hred, List.map_cons, List.nodup_cons]
      refine ⟨?_, ih hnd⟩
      intro hmem
      rcases (mem_mapKeys_mapSet rest k pk v).mp hmem with hmem2 | rfl
      · exact hnotin hmem2
      · exact hp rfl

theorem keyedByGuid_mapSet (m : AppMap) (k : String) (v : AppRecord)
    (h : keyedByGuid m) (hv : v.guid = k) : keyedByGuid (mapSet m k v) := by
  induction m with
  | nil =>
    intro p hp
    simp only [mapSet, List.mem_singleton] at hp
    subst hp
    exact hv
  | cons q rest ih =>
    obtain ⟨qk, qv⟩ := q
    intro p hp
    by_cases hq : qk = k
    · simp only [mapSet, if_pos hq] at hp
      rcases List.mem_cons.mp hp with rfl | hp
      · exact hv
      · exact h p (List.mem_cons_of_mem _ hp)
    · simp only [mapSet, if_neg hq] at hp
      rcases List.mem_cons.mp hp with rfl | hp
      · exact h (qk, qv) (List.mem_cons_self _ _)
      · exact ih (fun r hr => h r (List.mem_cons_of_mem _ hr)) p hp

/-! ### Directory-builder lemmas -/

theorem lastOr_map_none {α β : Type} (f : α → β) (l : List α) :
    lastOr (l.map f) none = l.getLast?.map f := by
  unfold lastOr
  rw [List.getLast?_map]
  cases l.getLast? <;> rfl

theorem mapGet_foldl_entityStep (es : List EntityOutline) (m : AppMap) (g : String) :
    mapGet (es.foldl entityStep m) g =
      lastOr ((es.filter (fun e => decide (e.guid = some g ∧ g ≠ ""))).map (mkAppRecord g))
        (mapGet m g) := by
  induction es generalizing m with
  | nil => rfl
  | cons e es ih =>
    rw [List.foldl_cons, ih, List.filter_cons]
    rcases hg : e.guid with _ | g'
    · have hstep : entityStep m e = m := by simp [entityStep, hg]
      rw [hstep]
      simp
    · by_cases hge : g' = ""
      · subst hge
        have hstep : entityStep m e = m := by simp [entityStep, hg]
        rw [hstep]
        rcases eq_or_ne g "" with rfl | hgg
        · simp
        · simp [Ne.symm hgg]
      · have hstep : entityStep m e = mapSet m g' (mkAppRecord g' e) := by
          simp [entityStep, hg, hge]
        rw [hstep, mapGet_mapSet]
        by_cases hgg : g' = g
        · subst hgg
          rw [if_pos rfl]
          have hpred : (decide (some g' = some g' ∧ g' ≠ "")) = true := by simp [hge]
          rw [hpred, if_pos rfl, List.map_cons, lastOr_cons]
        · rw [if_neg hgg]
          have hpred : (decide (some g' = some g ∧ g ≠ "")) = false := by simp [hgg]
          rw [hpred]
          simp

theorem findServicesGo_spec (pages : List ServicePage) (m : AppMap) (r : Nat)
    (hne : pages ≠ [])
    (hmid : ∀ i, i < pages.length - 1 → strTruthy (pages.getD i default).nextCursor = true)
    (hlast : strTruthy ((pages.getD (pages.length - 1) default).nextCursor) = false) :
    findServicesGo pages m r =
      (r + pages.length - 1, (pages.flatMap (fun p => p.entities)).foldl entityStep m) := by
  induction pages generalizing m r with
  | nil => exact absurd rfl hne
  | cons p rest ih =>
    rcases rest with _ | ⟨q, rest'⟩
    · have hfal : strTruthy p.nextCursor = false := by simpa using hlast
      simp [findServicesGo, hfal]
    · have htru : strTruthy p.nextCursor = true := by
        have := hmid 0 (by simp)
        simpa using this
      rw [findServicesGo, htru, if_pos rfl]
      rw [ih _ _ (by simp)
        (fun i hi => by
          have := hmid (i + 1) (by simp at hi ⊢; omega)
          simpa using this)
        (by
          have := hlast
          simpa using this)]
      rw [List.flatMap_cons, List.foldl_append]
      simp only [Prod.mk.injEq, and_true]
      simp [List.length_cons]
      omega

theorem enrichApp_shape_fail (app : AppRecord) (dat : Option EntityLookup)
    (h : shapeFails dat = true) :
    enrichApp app dat = (app, [⟨app.guid, app.nrUrl⟩]) := by
  rcases dat with _ | ⟨_ | ⟨_ | ⟨_ | insts, rv⟩⟩⟩ <;>
    first
      | rfl
      | exact absurd h (by simp [shapeFails])

theorem enrichApp_identity (app : AppRecord) (dat : Option EntityLookup) :
    (enrichApp app dat).1.guid = app.guid ∧
    (enrichApp app dat).1.name = app.name ∧
    (enrichApp app dat).1.applicationId = app.applicationId ∧
    (enrichApp app dat).1.accountId = app.accountId ∧
    (enrichApp app dat).1.nrUrl = app.nrUrl := by
  rcases dat with _ | ⟨_ | ⟨_ | ⟨_ | insts, rv⟩⟩⟩ <;>
    first
      | exact ⟨rfl, rfl, rfl, rfl, rfl⟩
      | (rw [enrichApp_spec]; exact ⟨rfl, rfl, rfl, rfl, rfl⟩)

theorem enrichApp_evidence_frame (app : AppRecord) (dat : Option EntityLookup)
    (h : entityModulesOf dat = []) :
    (enrichApp app dat).1.library = app.library ∧
    (enrichApp app dat).1.libraryVersion = app.libraryVersion ∧
    (enrichApp app dat).1.librarySha1 = app.librarySha1 ∧
    (enrichApp app dat).1.librarySha512 = app.librarySha512 := by
  rcases dat with _ | ⟨_ | ⟨_ | ⟨_ | insts, rv⟩⟩⟩ <;>
    first
      | exact ⟨rfl, rfl, rfl, rfl⟩
      | (have hm : instanceModules insts = [] := h
         rw [enrichApp_spec]
         rw [show instanceModules insts = [] from hm]
         exact ⟨rfl, rfl, rfl, rfl⟩)

theorem findModulesByEntity_finishes (att : String → Attempt EntityLookup × Attempt EntityLookup)
    (entries : List (String × AppRecord))
    (h : ∀ p ∈ entries, ∃ d, runQuery att p.2 = .result d) :
    ∃ ws, findModulesByEntity att entries = .finished (entries.map (enrichedPair att)) ws := by
  induction entries with
  | nil => exact ⟨[], rfl⟩
  | cons p rest ih =>
    obtain ⟨g, app⟩ := p
    obtain ⟨d, hd⟩ := h (g, app) (List.mem_cons_self _ _)
    obtain ⟨ws, hws⟩ := ih (fun q hq => h q (List.mem_cons_of_mem _ hq))
    refine ⟨(enrichApp app d).2 ++ ws, ?_⟩
    rw [findModulesByEntity]
    have hq : (nerdgraphQuery (att app.guid).1 (att app.guid).2).out = .result d := hd
    rw [hq, hws]
    simp only [enrichedPair, runQuery, resultData, List.map_cons]
    rw [hq]

theorem findModulesByEntity_exits (att : String → Attempt EntityLookup × Attempt EntityLookup)
    (pre : List (String × AppRecord)) (g : String) (app : AppRecord)
    (rest : List (String × AppRecord)) (c : Nat)
    (hpre : ∀ p ∈ pre, ∃ d, runQuery att p.2 = .result d)
    (hexit : runQuery att app = .exited c) :
    ∃ ws, findModulesByEntity att (pre ++ (g, app) :: rest) =
      .exited c (pre.map (enrichedPair att) ++ (g, app) :: rest) ws := by
  induction pre with
  | nil =>
    refine ⟨[], ?_⟩
    rw [List.nil_append, findModulesByEntity]
    have hq : (nerdgraphQuery (att app.guid).1 (att app.guid).2).out = .exited c := hexit
    rw [hq]
    rfl
  | cons p pre ih =>
    obtain ⟨pg, papp⟩ := p
    obtain ⟨d, hd⟩ := hpre (pg, papp) (List.mem_cons_self _ _)
    obtain ⟨ws, hws⟩ := ih (fun q hq => hpre q (List.mem_cons_of_mem _ hq))
    refine ⟨(enrichApp papp d).2 ++ ws, ?_⟩
    rw [List.cons_append, findModulesByEntity]
    have hq : (nerdgraphQuery (att papp.guid).1 (att papp.guid).2).out = .result d := hd
    rw [hq, hws]
    simp only [enrichedPair, runQuery, resultData, List.map_cons]
    rw [hq]
    rfl

theorem findModulesByEntity_keys (att : String → Attempt EntityLookup × Attempt EntityLookup)
    (entries : List (String × AppRecord)) :
    (runEntries (findModulesByEntity att entries)).map Prod.fst = entries.map Prod.fst := by
  induction entries with
  | nil => rfl
  | cons p rest ih =>
    obtain ⟨g, app⟩ := p
    rw [findModulesByEntity]
    cases hq : (nerdgraphQuery (att app.guid).1 (att app.guid).2).out with
    | exited c => simp [runEntries]
    | result dat =>
      cases hrec : findModulesByEntity att rest with
      | exited c es ws =>
        rw [hrec] at ih
        simp only [runEntries] at ih ⊢
        simp [ih]
      | finished es ws =>
        rw [hrec] at ih
        simp only [runEntries] at ih ⊢
        simp [ih]

theorem findModulesByEntity_keyed (att : String → Attempt EntityLookup × Attempt EntityLookup)
    (entries : List (String × AppRecord)) (h : keyedByGuid entries) :
    keyedByGuid (runEntries (findModulesByEntity att entries)) := by
  induction entries with
  | nil => exact h
  | cons p rest ih =>
    obtain ⟨g, app⟩ := p
    rw [findModulesByEntity]
    cases hq : (nerdgraphQuery (att app.guid).1 (att app.guid).2).out with
    | exited c => simpa [runEntries] using h
    | result dat =>
      have hrest : keyedByGuid (runEntries (findModulesByEntity att rest)) :=
        ih (fun q hq => h q (List.mem_cons_of_mem _ hq))
      have hg : app.guid = g := h (g, app) (List.mem_cons_self _ _)
      cases hrec : findModulesByEntity att rest with
      | exited c es ws =>
        rw [hrec] at hrest
        intro q hqmem
        rcases List.mem_cons.mp hqmem with rfl | hqmem
        · exact (enrichApp_identity app dat).1.trans hg
        · exact hrest q hqmem
      | finished es ws =>
        rw [hrec] at hrest
        intro q hqmem
        rcases List.mem_cons.mp hqmem with rfl | hqmem
        · exact (enrichApp_identity app dat).1.trans hg
        · exact hrest q hqmem

theorem mapGet_mem (m : AppMap) (k : String) (v : AppRecord)
    (h : mapGet m k = some v) : (k, v) ∈ m := by
  induction m with
  | nil => exact absurd h (by simp [mapGet])
  | cons p rest ih =>
    obtain ⟨pk, pv⟩ := p
    by_cases hp : pk = k
    · subst hp
      rw [mapGet, if_pos rfl] at h
      rw [Option.some_inj] at h
      subst h
      exact List.mem_cons_self _ _
    · rw [mapGet, if_neg hp] at h
      exact List.mem_cons_of_mem _ (ih h)

theorem mem_mapSet (m : AppMap) (k : String) (v : AppRecord) (p : String × AppRecord)
    (h : p ∈ mapSet m k v) : p ∈ m ∨ p = (k, v) := by
  induction m with
  | nil =>
    simp only [mapSet, List.mem_singleton] at h
    exact Or.inr h
  | cons q rest ih =>
    obtain ⟨qk, qv⟩ := q
    by_cases hq : qk = k
    · rw [show mapSet ((qk, qv) :: rest) k v = (k, v) :: rest by simp [mapSet, hq]] at h
      rcases List.mem_cons.mp h with rfl | h
      · exact Or.inr rfl
      · exact Or.inl (List.mem_cons_of_mem _ h)
    · rw [show mapSet ((qk, qv) :: rest) k v = (qk, qv) :: mapSet rest k v by
        simp [mapSet, hq]] at h
      rcases List.mem_cons.mp h with rfl | h
      · exact Or.inl (List.mem_cons_self _ _)
      · rcases ih h with h2 | h2
        · exact Or.inl (List.mem_cons_of_mem _ h2)
        · exact Or.inr h2

theorem applyModule_identity (a : AppRecord) (m : JarModule) :
    (applyModule a m).guid = a.guid ∧
    (applyModule a m).name = a.name ∧
    (applyModule a m).applicationId = a.applicationId ∧
    (applyModule a m).accountId = a.accountId ∧
    (applyModule a m).nrUrl = a.nrUrl ∧
    (applyModule a m).agentVersion = a.agentVersion ∧
    (applyModule a m).examinedInstances = a.examinedInstances := by
  rw [applyModule_spec]
  exact ⟨rfl, rfl, rfl, rfl, rfl, rfl, rfl⟩

theorem mkAppRecord_evidenceFree (g : String) (e : EntityOutline) :
    evidenceFree (mkAppRecord g e) :=
  ⟨rfl, rfl, rfl, rfl⟩

theorem dirInv_entityStep (m : AppMap) (e : EntityOutline) (h : dirInv m) :
    dirInv (entityStep m e) := by
  rcases hg : e.guid with _ | g
  · rw [show entityStep m e = m by simp [entityStep, hg]]
    exact h
  · by_cases hge : g = ""
    · rw [show entityStep m e = m by simp [entityStep, hg, hge]]
      exact h
    · rw [show entityStep m e = mapSet m g (mkAppRecord g e) by simp [entityStep, hg, hge]]
      refine ⟨keyedByGuid_mapSet _ _ _ h.1 rfl, nodupKeys_mapSet _ _ _ h.2.1, ?_⟩
      intro p hp
      rcases mem_mapSet _ _ _ _ hp with hmem | rfl
      · exact h.2.2 p hmem
      · exact mkAppRecord_evidenceFree g e

theorem dirInv_foldl_entityStep (es : List EntityOutline) (m : AppMap) (h : dirInv m) :
    dirInv (es.foldl entityStep m) := by
  induction es generalizing m with
  | nil => exact h
  | cons e es ih => exact ih _ (dirInv_entityStep m e h)

theorem dirInv_findServicesGo (pages : List ServicePage) (m : AppMap) (r : Nat)
    (h : dirInv m) : dirInv (findServicesGo pages m r).2 := by
  induction pages generalizing m r with
  | nil => exact h
  | cons p rest ih =>
    rw [findServicesGo]
    cases hc : strTruthy p.nextCursor with
    | true =>
      rw [if_pos rfl]
      exact ih _ _ (dirInv_foldl_entityStep _ _ h)
    | false =>
      simp only [Bool.false_eq_true, if_false]
      exact dirInv_foldl_entityStep _ _ h

/-! ### Per-account lemmas -/

theorem processModuleGuid_get (accountId : Int) (appName : String) (jm : JarModule)
    (apps : AppMap) (guid : String) (habs : mapGet apps guid = none) :
    processModuleGuid accountId appName jm apps guid =
      mapSet apps guid (applyModule (synthesizeRecord accountId appName guid) jm) := by
  unfold processModuleGuid
  rw [habs]

theorem processModuleGuid_keyed (accountId : Int) (appName : String) (jm : JarModule)
    (apps : AppMap) (guid : String) (h : keyedByGuid apps) :
    keyedByGuid (processModuleGuid accountId appName jm apps guid) := by
  unfold processModuleGuid
  apply keyedByGuid_mapSet _ _ _ h
  cases hget : mapGet apps guid with
  | none =>
    exact (applyModule_identity _ _).1
  | some a =>
    have := h (guid, a) (mapGet_mem _ _ _ hget)
    exact (applyModule_identity _ _).1.trans this

theorem processModuleGuid_nodup (accountId : Int) (appName : String) (jm : JarModule)
    (apps : AppMap) (guid : String) (h : nodupKeys apps) :
    nodupKeys (processModuleGuid accountId appName jm apps guid) := by
  unfold processModuleGuid
  exact nodupKeys_mapSet _ _ _ h

theorem processModuleGuid_frame (accountId : Int) (appName : String) (jm : JarModule)
    (apps : AppMap) (guid : String) (g : String) (hne : g ≠ guid) :
    mapGet (processModuleGuid accountId appName jm apps guid) g = mapGet apps g := by
  unfold processModuleGuid
  rw [mapGet_mapSet, if_neg (fun hcontra => hne hcontra.symm)]

/-- C1: for a page sequence whose pages 1..K-1 carry a truthy `nextCursor`
and whose page K carries none, `findServices` issues exactly K list-entities
requests (cursors consumed strictly in sequence), and the resulting entity
map maps each guid to the record of the last entity carrying that non-empty
guid across all pages in order (union of the pages, deduplicated by guid,
last write wins). -/
theorem findServices_pagination (pages : List ServicePage)
    (hne : pages ≠ [])
    (hmid : ∀ i, i < pages.length - 1 → strTruthy (pages.getD i default).nextCursor = true)
    (hlast : strTruthy ((pages.getD (pages.length - 1) default).nextCursor) = false) :
    (findServices pages).1 = pages.length ∧
    ∀ g, mapGet (findServices pages).2 g =
      ((pages.flatMap (fun p => p.entities)).filter
          (fun e => decide (e.guid = some g ∧ g ≠ ""))).getLast?.map (mkAppRecord g) := by
  unfold findServices
  rw [findServicesGo_spec pages [] 1 hne hmid hlast]
  refine ⟨?_, ?_⟩
  · show 1 + pages.length - 1 = pages.length
    omega
  · intro g
    show mapGet ((pages.flatMap fun p => p.entities).foldl entityStep []) g = _
    rw [mapGet_foldl_entityStep]
    show lastOr _ none = _
    rw [lastOr_map_none]

/-- C1 witness: the pagination theorem applied to the concrete two-page
listing `c1Pages`. -/
theorem findServices_pagination_witness :
    (c1Pages ≠ [] ∧
      (∀ i, i < c1Pages.length - 1 → strTruthy (c1Pages.getD i default).nextCursor = true) ∧
      strTruthy ((c1Pages.getD (c1Pages.length - 1) default).nextCursor) = false) ∧
    (findServices c1Pages).1 = c1Pages.length ∧
    ∀ g, mapGet (findServices c1Pages).2 g =
      ((c1Pages.flatMap (fun p => p.entities)).filter
          (fun e => decide (e.guid = some g ∧ g ≠ ""))).getLast?.map (mkAppRecord g) :=
  ⟨⟨by decide, by decide, by decide⟩,
    findServices_pagination c1Pages (by decide) (by decide) (by decide)⟩

theorem nerdgraphQuery_requests_le {α : Type} (b1 b2 : Attempt α) :
    (nerdgraphQuery b1 b2).requests ≤ 2 := by
  rcases b1 with e1 | ⟨errs1, _ | d1⟩
  · by_cases h1 : isCertError e1 = true
    · simp [nerdgraphQuery, handleNetworkError, h1]
    · rcases b2 with e2 | ⟨errs2, _ | d2⟩
      · by_cases h2 : isCertError e2 = true <;>
          simp [nerdgraphQuery, handleNetworkError, h1, h2]
      · simp [nerdgraphQuery, handleNetworkError, h1]
      · simp [nerdgraphQuery, handleNetworkError, h1]
  · rcases b2 with e2 | ⟨errs2, _ | d2⟩
    · by_cases h2 : isCertError e2 = true <;>
        simp [nerdgraphQuery, handleNetworkError, h2]
    · simp [nerdgraphQuery, handleNetworkError]
    · simp [nerdgraphQuery, handleNetworkError]
  · simp [nerdgraphQuery]

/-- C2: when the first transport attempt throws a non-certificate
(network/parse) exception, `nerdgraphQuery` retries the whole request
exactly once: a successful retry hands the caller the data of the retry exactly
(with no logged errors and no exit), a failed retry yields `undefined`
rather than a thrown error, and no call ever issues more than two
requests. -/
theorem nerdgraphQuery_retry_policy {α : Type} (e : NetErr) (he : isCertError e = false)
    (a2 : Attempt α) :
    (∀ (errs : Option String) (d : α), a2 = .responds errs (some d) →
        nerdgraphQuery (.throws e) a2 = ⟨2, [], false, .result (some d)⟩) ∧
    (∀ e2 : NetErr, a2 = .throws e2 → isCertError e2 = false →
        nerdgraphQuery (.throws e) a2 = ⟨2, [], false, .result none⟩) ∧
    (∀ errs : Option String, a2 = .responds errs none →
        nerdgraphQuery (.throws e) a2 = ⟨2, [], false, .result none⟩) ∧
    (∀ b1 b2 : Attempt α, (nerdgraphQuery b1 b2).requests ≤ 2) := by
  refine ⟨?_, ?_, ?_, ?_⟩
  · rintro errs d rfl
    simp [nerdgraphQuery, handleNetworkError, he]
  · rintro e2 rfl he2
    simp [nerdgraphQuery, handleNetworkError, he, he2]
  · rintro errs rfl
    simp [nerdgraphQuery, handleNetworkError, he]
  · exact fun b1 b2 => nerdgraphQuery_requests_le b1 b2

/-- C2 witness: a throw of a plain network error followed by a successful
retry hands the caller the data of the retry. -/
theorem nerdgraphQuery_retry_policy_witness :
    isCertError ⟨none, "Error: socket hang up"⟩ = false ∧
    nerdgraphQuery (Attempt.throws ⟨none, "Error: socket hang up"⟩)
        (Attempt.responds none (some (7 : Nat))) = ⟨2, [], false, .result (some 7)⟩ :=
  ⟨by decide,
    (nerdgraphQuery_retry_policy ⟨none, "Error: socket hang up"⟩ (by decide)
      (Attempt.responds none (some 7))).1 none 7 rfl⟩

/-- C3: a transport attempt throwing a certificate-trust error (code 18,
code 19, or an error string containing "self signed certificate") makes the
process exit with status 5 (non-zero) right after emitting the remediation
guidance: on a first-attempt throw only one request was issued (no retry),
a second-attempt throw likewise exits, and inside the entity loop the
remaining entities (including the current one) are left untouched. -/
theorem certError_fatal (e : NetErr) (he : isCertError e = true) :
    (∀ a2 : Attempt EntityLookup,
        nerdgraphQuery (.throws e) a2 = ⟨1, [], true, .exited 5⟩) ∧
    (∀ errs : Option String,
        ((nerdgraphQuery (Attempt.responds errs (none : Option EntityLookup))
            (.throws e)).out = .exited 5 ∧
          (nerdgraphQuery (Attempt.responds errs (none : Option EntityLookup))
            (.throws e)).certHelp = true)) ∧
    (5 : Nat) ≠ 0 ∧
    (∀ (att : String → Attempt EntityLookup × Attempt EntityLookup)
        (pre : List (String × AppRecord)) (g : String) (app : AppRecord)
        (rest : List (String × AppRecord)),
        (att app.guid).1 = .throws e →
        (∀ p ∈ pre, ∃ d, runQuery att p.2 = .result d) →
        ∃ ws, findModulesByEntity att (pre ++ (g, app) :: rest) =
          .exited 5 (pre.map (enrichedPair att) ++ (g, app) :: rest) ws) := by
  refine ⟨?_, ?_, by decide, ?_⟩
  · intro a2
    simp [nerdgraphQuery, handleNetworkError, he]
  · intro errs
    constructor <;> simp [nerdgraphQuery, handleNetworkError, he]
  · intro att pre g app rest hthrow hpre
    have hexit : runQuery att app = .exited 5 := by
      unfold runQuery
      rw [hthrow]
      simp [nerdgraphQuery, handleNetworkError, he]
    exact findModulesByEntity_exits att pre g app rest 5 hpre hexit

/-- C3 witness: error code 18 on the first attempt exits after one request
with the remediation guidance. -/
theorem certError_fatal_witness :
    isCertError ⟨some 18, "unable to verify the first certificate"⟩ = true ∧
    nerdgraphQuery (Attempt.throws ⟨some 18, "unable to verify the first certificate"⟩)
        (Attempt.responds none (none : Option EntityLookup)) = ⟨1, [], true, .exited 5⟩ :=
  ⟨by decide,
    (certError_fatal ⟨some 18, "unable to verify the first certificate"⟩ (by decide)).1
      (Attempt.responds none none)⟩

/-- C4 counterexample: with a first instance whose module carries
`sha1Checksum = "X"` and a last instance whose module carries no
attributes, the record keeps `librarySha1 = some "X"`, while the claimed
sha1Checksum of the last matching module is absent. -/
theorem findModulesByEntity_merge_counterexample :
    ¬ ((enrichApp ⟨"gX", none, none, none, none, "u", none, none, none, none, none, none⟩
          (some ⟨some ⟨some ⟨some
            [⟨some [⟨"log4j-core", "2.14.0", some [⟨"sha1Checksum", "X"⟩]⟩]⟩,
             ⟨some [⟨"log4j-core", "2.16.0", none⟩]⟩], none⟩⟩⟩)).1.librarySha1 =
        lastModuleSha "sha1Checksum"
          [⟨some [⟨"log4j-core", "2.14.0", some [⟨"sha1Checksum", "X"⟩]⟩]⟩,
           ⟨some [⟨"log4j-core", "2.16.0", none⟩]⟩]) := by
  decide

/-- C4 (amended): for a response whose `applicationInstances` chain is
present, the merge overwrites `library`/`libraryVersion` with the name and
version of the last module in iteration order, overwrites each checksum
field with the last truthy occurrence of the corresponding attribute across
all modules in order (keeping the prior value when none occurs), stores the
deduplicated comma-joined min/max agent version range when
`runningAgentVersions` is present, and sets `examinedInstances` to the
number of instances reporting at least one module. -/
theorem findModulesByEntity_merge (app : AppRecord) (insts : List AppInstance)
    (rv : Option AgentVersions) :
    (enrichApp app (some ⟨some ⟨some ⟨some insts, rv⟩⟩⟩)).1.library =
        lastOr ((instanceModules insts).map (fun m => m.name)) app.library ∧
    (enrichApp app (some ⟨some ⟨some ⟨some insts, rv⟩⟩⟩)).1.libraryVersion =
        lastOr ((instanceModules insts).map (fun m => m.version)) app.libraryVersion ∧
    (enrichApp app (some ⟨some ⟨some ⟨some insts, rv⟩⟩⟩)).1.librarySha1 =
        lastOr (modsWrites "sha1Checksum" (instanceModules insts)) app.librarySha1 ∧
    (enrichApp app (some ⟨some ⟨some ⟨some insts, rv⟩⟩⟩)).1.librarySha512 =
        lastOr (modsWrites "sha512Checksum" (instanceModules insts)) app.librarySha512 ∧
    (enrichApp app (some ⟨some ⟨some ⟨some insts, rv⟩⟩⟩)).1.agentVersion =
        (match rv with
          | some r => some (concatNoneOrMore r.minVersion r.maxVersion none none none none)
          | none => app.agentVersion) ∧
    (enrichApp app (some ⟨some ⟨some ⟨some insts, rv⟩⟩⟩)).1.examinedInstances =
        some (countExamined insts) := by
  rw [enrichApp_spec]
  exact ⟨rfl, rfl, rfl, rfl, rfl, rfl⟩

/-- C5: when an account-level module result carries a guid absent from the
directory, exactly one new record is synthesized for that guid (all other
keys are untouched) and merged with the evidence of the module; its application
id is the guid's base64 decode split on `|` at the 4th field, its reporting
URL is derived from the account and application ids when that id is truthy;
a guid whose decode throws yields an absent application id and an empty
reporting URL. -/
theorem findModulesByAccount_synthesis (accountId : Int) (appName : String) (jm : JarModule)
    (apps : AppMap) (guid : String) (habs : mapGet apps guid = none) :
    mapGet (processModuleGuid accountId appName jm apps guid) guid =
      some (applyModule (synthesizeRecord accountId appName guid) jm) ∧
    (∀ g, g ≠ guid → mapGet (processModuleGuid accountId appName jm apps guid) g = mapGet apps g) ∧
    (applyModule (synthesizeRecord accountId appName guid) jm).applicationId =
      getApplicationIdFromGuid guid ∧
    (applyModule (synthesizeRecord accountId appName guid) jm).nrUrl =
      (if jsNumTruthy (getApplicationIdFromGuid guid) then
        mkEnvUrl (toString accountId) (renderAppId (getApplicationIdFromGuid guid))
      else "") ∧
    (atobString guid = none →
      (applyModule (synthesizeRecord accountId appName guid) jm).applicationId = none ∧
      (applyModule (synthesizeRecord accountId appName guid) jm).nrUrl = "") := by
  refine ⟨?_, ?_, ?_, ?_, ?_⟩
  · rw [processModuleGuid_get _ _ _ _ _ habs, mapGet_mapSet, if_pos rfl]
  · exact fun g hg => processModuleGuid_frame _ _ _ _ _ _ hg
  · rw [(applyModule_identity _ _).2.2.1]
    rfl
  · rw [(applyModule_identity _ _).2.2.2.2.1]
    rfl
  · intro hatob
    have hid : getApplicationIdFromGuid guid = none := by
      unfold getApplicationIdFromGuid
      by_cases hg : guid = ""
      · rw [if_pos hg]
      · rw [if_neg hg, hatob]
    constructor
    · rw [(applyModule_identity _ _).2.2.1]
      show getApplicationIdFromGuid guid = none
      exact hid
    · rw [(applyModule_identity _ _).2.2.2.2.1]
      show (if jsNumTruthy (getApplicationIdFromGuid guid) then
          mkEnvUrl (toString accountId) (renderAppId (getApplicationIdFromGuid guid))
        else "") = ""
      rw [hid]
      rfl

/-- C5 witness: synthesizing under a decodable guid inserts exactly the
synthesized-and-merged record. -/
theorem findModulesByAccount_synthesis_witness :
    mapGet [] "MTIzNDV8QVBNfEFQUExJQ0FUSU9OfDY3OA==" = none ∧
    mapGet (processModuleGuid 12345 "myhost" ⟨"log4j-core", "2.12.1", none⟩ []
        "MTIzNDV8QVBNfEFQUExJQ0FUSU9OfDY3OA==") "MTIzNDV8QVBNfEFQUExJQ0FUSU9OfDY3OA==" =
      some (applyModule (synthesizeRecord 12345 "myhost" "MTIzNDV8QVBNfEFQUExJQ0FUSU9OfDY3OA==")
        ⟨"log4j-core", "2.12.1", none⟩) :=
  ⟨rfl, (findModulesByAccount_synthesis 12345 "myhost" ⟨"log4j-core", "2.12.1", none⟩ []
    "MTIzNDV8QVBNfEFQUExJQ0FUSU9OfDY3OA==" rfl).1⟩

/-- C6: a per-entity lookup yielding no data or a response missing the
nested `actor.entity.applicationInstances` shape leaves the record
completely unmodified and emits a diagnostic carrying the record's guid and
reporting URL; and as long as no transport call exits the process, the loop
enriches every entry independently and runs to completion — one failing
entity never aborts the scan. -/
theorem enrich_shape_failure_frame (app : AppRecord) (dat : Option EntityLookup)
    (att : String → Attempt EntityLookup × Attempt EntityLookup)
    (entries : List (String × AppRecord))
    (hfail : shapeFails dat = true)
    (hok : ∀ p ∈ entries, ∃ d, runQuery att p.2 = .result d) :
    enrichApp app dat = (app, [⟨app.guid, app.nrUrl⟩]) ∧
    ∃ ws, findModulesByEntity att entries = .finished (entries.map (enrichedPair att)) ws :=
  ⟨enrichApp_shape_fail app dat hfail, findModulesByEntity_finishes att entries hok⟩

/-- C6 witness: a both-attempts-failed lookup (no data) leaves the concrete
record untouched and the one-entry scan still finishes. -/
theorem enrich_shape_failure_frame_witness :
    shapeFails (none : Option EntityLookup) = true ∧
    enrichApp ⟨"gW", none, none, none, none, "uW", none, none, none, none, none, none⟩
        (none : Option EntityLookup) =
      (⟨"gW", none, none, none, none, "uW", none, none, none, none, none, none⟩,
        [⟨"gW", "uW"⟩]) :=
  ⟨rfl,
    (enrich_shape_failure_frame
      ⟨"gW", none, none, none, none, "uW", none, none, none, none, none, none⟩ none
      (fun _ => (Attempt.responds none none, Attempt.responds none none))
      [("gW", ⟨"gW", none, none, none, none, "uW", none, none, none, none, none, none⟩)]
      rfl (fun _ _ => ⟨none, rfl⟩)).1⟩

/-- C7 counterexample: a record enriched from a module whose name is the
empty string has a present but falsy `library` field; `writeResults`
excludes it while the claim's "field is present" subset keeps it. -/
theorem writeResults_presence_counterexample :
    writeResults [("gC", c7Record)] false ≠
      (([("gC", c7Record)] : AppMap).map Prod.snd).filter (fun a => a.library.isSome) := by
  decide

/-- C7 (amended): `writeResults` with `includeAll = false` returns exactly
the records of the map whose `library` field is truthy (present and
non-empty); with `includeAll = true` it returns every record; either way it
only selects among the map's records, modifying none. -/
theorem writeResults_filter (state : AppMap) :
    writeResults state false = (state.map Prod.snd).filter (fun a => strTruthy a.library) ∧
    writeResults state true = state.map Prod.snd ∧
    (∀ b, (writeResults state b).Sublist (state.map Prod.snd)) := by
  refine ⟨rfl, rfl, ?_⟩
  intro b
  cases b
  · exact List.filter_sublist _
  · exact List.Sublist.refl _

/-- C9: merging the same per-entity lookup response into a record twice
yields exactly the record (and diagnostics) of merging it once — the
evidence merge, including `examinedInstances` and the deduplicated agent
version join, is idempotent. -/
theorem enrich_idempotent (app : AppRecord) (dat : Option EntityLookup) :
    enrichApp (enrichApp app dat).1 dat = enrichApp app dat := by
  rcases dat with _ | ⟨_ | ⟨_ | ⟨_ | insts, rv⟩⟩⟩
  · rfl
  · rfl
  · rfl
  · rfl
  · cases rv with
    | none =>
      rw [enrichApp_spec, enrichApp_spec]
      cases app
      simp [lastOr_idem]
    | some r =>
      rw [enrichApp_spec, enrichApp_spec]
      cases app
      simp [lastOr_idem]

/-- C10: a first attempt that resolves without throwing but carries no
`data` still triggers the retry, so two requests are issued whenever the
first response has no data — not only on a thrown exception; and a response
carrying both `errors` and `data` logs the errors and still hands the data
to the caller in one request. -/
theorem nerdgraphQuery_nodata (α : Type) (errs : Option String) (a2 : Attempt α) :
    (nerdgraphQuery (Attempt.responds errs (none : Option α)) a2).requests = 2 ∧
    (∀ (e : String) (d : α) (b2 : Attempt α),
        nerdgraphQuery (Attempt.responds (some e) (some d)) b2 =
          ⟨1, ["Error returned from API: " ++ e], false, .result (some d)⟩) := by
  constructor
  · rcases a2 with e2 | ⟨errs2, _ | d2⟩
    · by_cases h2 : isCertError e2 = true <;>
        simp [nerdgraphQuery, handleNetworkError, h2]
    · simp [nerdgraphQuery]
    · simp [nerdgraphQuery]
  · intro e d b2
    rfl

/-- C8: every operation writing into the entity map preserves the working
invariants: the directory builder produces a map whose records carry their
key as guid, with no duplicate guid, and with all evidence fields absent;
the per-entity loop keeps the key set and the guid-matches-key property and
leaves the evidence fields of a record untouched when its response carries
no module evidence; the per-account synthesize-and-merge step keeps
guid-matches-key and key uniqueness and touches no other guid's record. -/
theorem entityMap_invariants
    (pages : List ServicePage)
    (att : String → Attempt EntityLookup × Attempt EntityLookup)
    (entries : List (String × AppRecord))
    (app : AppRecord) (dat : Option EntityLookup)
    (accountId : Int) (appName : String) (jm : JarModule)
    (apps : AppMap) (guid : String)
    (hentries : keyedByGuid entries)
    (happs : keyedByGuid apps) (hnd : nodupKeys apps) :
    (keyedByGuid (findServices pages).2 ∧ nodupKeys (findServices pages).2 ∧
      ∀ p ∈ (findServices pages).2, evidenceFree p.2) ∧
    ((runEntries (findModulesByEntity att entries)).map Prod.fst = entries.map Prod.fst ∧
      keyedByGuid (runEntries (findModulesByEntity att entries))) ∧
    ((enrichApp app dat).1.guid = app.guid ∧
      (entityModulesOf dat = [] →
        (enrichApp app dat).1.library = app.library ∧
        (enrichApp app dat).1.libraryVersion = app.libraryVersion ∧
        (enrichApp app dat).1.librarySha1 = app.librarySha1 ∧
        (enrichApp app dat).1.librarySha512 = app.librarySha512)) ∧
    (keyedByGuid (processModuleGuid accountId appName jm apps guid) ∧
      nodupKeys (processModuleGuid accountId appName jm apps guid) ∧
      ∀ g, g ≠ guid →
        mapGet (processModuleGuid accountId appName jm apps guid) g = mapGet apps g) := by
  have hdir : dirInv (findServices pages).2 := by
    apply dirInv_findServicesGo
    refine ⟨?_, ?_, ?_⟩
    · intro p hp
      exact absurd hp (List.not_mem_nil p)
    · exact List.nodup_nil
    · intro p hp
      exact absurd hp (List.not_mem_nil p)
  refine ⟨⟨hdir.1, hdir.2.1, hdir.2.2⟩,
    ⟨findModulesByEntity_keys att entries, findModulesByEntity_keyed att entries hentries⟩,
    ⟨(enrichApp_identity app dat).1, fun h => enrichApp_evidence_frame app dat h⟩,
    processModuleGuid_keyed accountId appName jm apps guid happs,
    processModuleGuid_nodup accountId appName jm apps guid hnd,
    fun g hg => processModuleGuid_frame accountId appName jm apps guid g hg⟩

/-- C8 witness: the invariants theorem applied at a concrete one-page
directory, a concrete one-entry map and a concrete synthesize-and-merge
step. -/
theorem entityMap_invariants_witness :
    (keyedByGuid [("gW", ⟨"gW", none, none, none, none, "uW", none, none, none, none, none, none⟩)] ∧
      nodupKeys [("gW", ⟨"gW", none, none, none, none, "uW", none, none, none, none, none, none⟩)]) ∧
    keyedByGuid (findServices c1Pages).2 ∧ nodupKeys (findServices c1Pages).2 :=
  ⟨⟨by decide, by decide⟩,
    ((entityMap_invariants c1Pages
      (fun _ => (Attempt.responds none none, Attempt.responds none none))
      [("gW", ⟨"gW", none, none, none, none, "uW", none, none, none, none, none, none⟩)]
      ⟨"gW", none, none, none, none, "uW", none, none, none, none, none, none⟩ none
      1 "host" ⟨"log4j-core", "2.0", none⟩
      [("gW", ⟨"gW", none, none, none, none, "uW", none, none, none, none, none, none⟩)] "gZ"
      (by decide) (by decide) (by decide)).1).1,
    ((entityMap_invariants c1Pages
      (fun _ => (Attempt.responds none none, Attempt.responds none none))
      [("gW", ⟨"gW", none, none, none, none, "uW", none, none, none, none, none, none⟩)]
      ⟨"gW", none, none, none, none, "uW", none, none, none, none, none, none⟩ none
      1 "host" ⟨"log4j-core", "2.0", none⟩
      [("gW", ⟨"gW", none, none, none, none, "uW", none, none, none, none, none, none⟩)] "gZ"
      (by decide) (by decide) (by decide)).1).2.1⟩

end NrFindLog4j
